import Mathlib

/-!
Verification development for the certstream-monitor pipeline.

The Go sources are embedded shallowly:
* strings become `String` (Go byte strings restricted to their rune content),
* slices become `List`,
* `time.Duration` and `time.Time` become `Int` nanosecond counts,
* `float64` arithmetic (used only by the backoff computation and by the
  epoch-second fields of the JSON payload) is idealised over `ℚ`, with the
  Go float-to-int conversion modelled as truncation toward zero,
* channels become explicit bounded-queue states with a capacity, a buffered
  list and a drop counter; the Go `select`/`default` non-blocking send is a
  total step function on that state.
-/

namespace CertstreamMonitor

/-! ## Domain matcher (src/certstream/matcher.go) -/

/-- Embedding of Go `strings.ToLower` (per-rune basic-latin lowering,
which is all that `strings.ToLower` does on ASCII domain names). -/
def goToLower (s : String) : String := String.mk (s.data.map Char.toLower)

/-- Embedding of Go `strings.HasSuffix`. -/
def goHasSuffix (s suffix : String) : Bool := suffix.data.isSuffixOf s.data

/-- Embedding of `IsDomainMatch` from src/certstream/matcher.go:
empty check, lowercase both, exact match, else suffix match on `"." + watch`. -/
def IsDomainMatch (certDomain watchDomain : String) : Bool :=
  if certDomain = "" ∨ watchDomain = "" then false
  else
    let c := goToLower certDomain
    let w := goToLower watchDomain
    if c = w then true
    else if goHasSuffix c ("." ++ w) then true
    else false

/-- Scanner for well-formed label sequences (used to state claim C1):
`labelScan false l` is true iff `l` is a non-empty `.`-separated sequence of
non-empty labels. The `inLabel` flag records whether we are inside a label. -/
def labelScan (inLabel : Bool) : List Char → Bool
  | [] => inLabel
  | c :: cs => if c = '.' then (if inLabel then labelScan false cs else false)
               else labelScan true cs

/-- A lowercase-insensitive well-formedness predicate for domain strings:
a non-empty sequence of non-empty labels joined by dots. -/
def isDomainStr (s : String) : Bool := labelScan false s.data

theorem labelScan_append (p q : List Char) (mode : Bool) :
    labelScan mode (p ++ '.' :: q) = (labelScan mode p && labelScan false q) := by
  induction p generalizing mode with
  | nil =>
    cases mode <;> simp [labelScan]
  | cons c cs ih =>
    by_cases hc : c = '.'
    · subst hc
      cases mode <;> simp [labelScan, ih]
    · simp [labelScan, hc, ih]

theorem char_toLower_toLower (c : Char) : c.toLower.toLower = c.toLower := by
  unfold Char.toLower
  by_cases h : c.toNat ≥ 65 ∧ c.toNat ≤ 90
  · rw [if_pos h]
    have hv : (c.toNat + 32).isValidChar := Or.inl (by omega)
    have ht : (Char.ofNat (c.toNat + 32)).toNat = c.toNat + 32 := by
      rw [Char.ofNat, dif_pos hv]
      rfl
    rw [if_neg]
    rw [ht]
    omega
  · rw [if_neg h, if_neg h]

theorem goToLower_goToLower (s : String) : goToLower (goToLower s) = goToLower s := by
  unfold goToLower
  congr 1
  simp only [List.map_map]
  exact List.map_congr_left fun c _ => char_toLower_toLower c

theorem goToLower_eq_empty_iff (s : String) : goToLower s = "" ↔ s = "" := by
  unfold goToLower
  constructor
  · intro h
    have hd : (String.mk (s.data.map Char.toLower)).data = ("" : String).data := by rw [h]
    simp only at hd
    have : s.data = [] := by
      cases hs : s.data with
      | nil => rfl
      | cons a l => rw [hs] at hd; simp_all [List.map]
    cases s with
    | mk d => simp_all
  · intro h
    subst h
    rfl

theorem isDomainStr_ne_empty {s : String} (h : isDomainStr s = true) : s ≠ "" := by
  intro he
  subst he
  exact absurd h (by decide)

theorem isDomainMatch_iff (o w : String)
    (ho : isDomainStr o = true) (hw : isDomainStr w = true)
    (hlo : goToLower o = o) (hlw : goToLower w = w) :
    IsDomainMatch o w = true ↔
      o = w ∨ ∃ X : String, isDomainStr X = true ∧ o = X ++ "." ++ w := by
  have hone : o ≠ "" := isDomainStr_ne_empty ho
  have hwne : w ≠ "" := isDomainStr_ne_empty hw
  have hdw : ("." ++ w).data = '.' :: w.data := rfl
  unfold IsDomainMatch
  rw [if_neg (by tauto)]
  simp only [hlo, hlw]
  constructor
  · intro h
    by_cases heq : o = w
    · exact Or.inl heq
    · rw [if_neg heq] at h
      right
      by_cases hs : goHasSuffix o ("." ++ w) = true
      · have hsuf : ('.' :: w.data) <:+ o.data := by
          have := hs
          unfold goHasSuffix at this
          rw [List.isSuffixOf_iff_suffix] at this
          rwa [hdw] at this
        obtain ⟨p, hp⟩ := hsuf
        have hpl : labelScan false p = true ∧ labelScan false w.data = true := by
          have := ho
          unfold isDomainStr at this
          rw [← hp, labelScan_append, Bool.and_eq_true] at this
          exact this
        refine ⟨String.mk p, hpl.1, ?_⟩
        apply String.ext
        show o.data = (String.mk p ++ "." ++ w).data
        rw [String.data_append, String.data_append]
        show o.data = (p ++ ['.']) ++ w.data
        rw [List.append_assoc]
        exact hp.symm
      · rw [if_neg hs] at h
        exact absurd h (by decide)
  · intro h
    rcases h with heq | ⟨X, _, hXo⟩
    · rw [if_pos heq]
    · have hsuf : goHasSuffix o ("." ++ w) = true := by
        unfold goHasSuffix
        rw [List.isSuffixOf_iff_suffix]
        refine ⟨X.data, ?_⟩
        rw [hXo]
        rw [hdw, String.data_append, String.data_append]
        show X.data ++ '.' :: w.data = (X.data ++ ['.']) ++ w.data
        rw [List.append_assoc]
        rfl
      by_cases heq : o = w
      · rw [if_pos heq]
      · rw [if_neg heq, if_pos hsuf]

/-- C1: for non-empty lowercase well-formed domain strings, `IsDomainMatch o w`
is true iff `o = w` or `o = X ++ "." ++ w` for some non-empty label sequence
`X`; the concrete examples from the spec hold; an empty argument always yields
false; and lowercasing either argument does not change the result. -/
theorem C1_isDomainMatch_spec :
    (∀ o w : String, isDomainStr o = true → isDomainStr w = true →
        goToLower o = o → goToLower w = w →
        (IsDomainMatch o w = true ↔
          o = w ∨ ∃ X : String, isDomainStr X = true ∧ o = X ++ "." ++ w)) ∧
    IsDomainMatch "www.nhn.no" "nhn.no" = true ∧
    IsDomainMatch "nhn.no" "nhn.no" = true ∧
    IsDomainMatch "mynhn.no" "nhn.no" = false ∧
    IsDomainMatch "nhn.no.example.com" "nhn.no" = false ∧
    (∀ w, IsDomainMatch "" w = false) ∧
    (∀ o, IsDomainMatch o "" = false) ∧
    (∀ o w : String, IsDomainMatch (goToLower o) w = IsDomainMatch o w ∧
        IsDomainMatch o (goToLower w) = IsDomainMatch o w) := by
  refine ⟨isDomainMatch_iff, by decide, by decide, by decide, by decide, ?_, ?_, ?_⟩
  · intro w
    unfold IsDomainMatch
    rw [if_pos (Or.inl rfl)]
  · intro o
    unfold IsDomainMatch
    rw [if_pos (Or.inr rfl)]
  · have key : ∀ a b : String, a ≠ "" → b ≠ "" →
        IsDomainMatch a b =
          (if goToLower a = goToLower b then true
           else if goHasSuffix (goToLower a) ("." ++ goToLower b) then true
           else false) := by
      intro a b ha hb
      unfold IsDomainMatch
      rw [if_neg (by tauto)]
    intro o w
    constructor
    · by_cases ho : o = ""
      · subst ho
        rfl
      · by_cases hw : w = ""
        · subst hw
          unfold IsDomainMatch
          rw [if_pos (Or.inr rfl), if_pos (Or.inr rfl)]
        · have h1 : goToLower o ≠ "" := fun h => ho ((goToLower_eq_empty_iff o).mp h)
          rw [key _ _ h1 hw, key _ _ ho hw, goToLower_goToLower]
    · by_cases hw : w = ""
      · subst hw
        rfl
      · by_cases ho : o = ""
        · subst ho
          unfold IsDomainMatch
          rw [if_pos (Or.inl rfl), if_pos (Or.inl rfl)]
        · have h1 : goToLower w ≠ "" := fun h => hw ((goToLower_eq_empty_iff w).mp h)
          rw [key _ _ ho h1, key _ _ ho hw, goToLower_goToLower]

/-- Witness for C1: instantiates the universally quantified part at a
concrete matching pair. -/
theorem C1_isDomainMatch_spec_witness :
    IsDomainMatch "sub.example.com" "example.com" = true :=
  (C1_isDomainMatch_spec.1 "sub.example.com" "example.com" (by decide) (by decide)
    (by decide) (by decide)).mpr (Or.inr ⟨"sub", by decide, by decide⟩)

/-! ## Configuration (src/certstream/types.go) -/

def DefaultWebSocketURL : String := "wss://certstream.calidog.io/"

/-- Go `time.Second` as a `time.Duration` nanosecond count. -/
def goSecond : Int := 1000000000

/-- The `Config` struct; `time.Duration` fields are nanosecond counts and the
`Context` field (pure cancellation plumbing) is not modelled. -/
structure Config where
  webSocketURL : String
  domains : List String
  debug : Bool
  reconnectTimeout : Int
  maxReconnectTimeout : Int
  disableBackoff : Bool
  bufferSize : Int
  workerCount : Int

/-- Go functional option `type Option func(*Config)`; called `ConfigOption`
here because `Option` is taken by Lean. -/
def ConfigOption := Config → Config

def WithWebSocketURL (url : String) : ConfigOption :=
  fun c => { c with webSocketURL := url }

def WithDomains (domains : List String) : ConfigOption :=
  fun c => { c with domains := domains }

def WithDebug (debug : Bool) : ConfigOption :=
  fun c => { c with debug := debug }

def WithReconnectTimeout (timeout : Int) : ConfigOption :=
  fun c => { c with reconnectTimeout := timeout }

def WithMaxReconnectTimeout (timeout : Int) : ConfigOption :=
  fun c => { c with maxReconnectTimeout := timeout }

def WithDisableBackoff (disable : Bool) : ConfigOption :=
  fun c => { c with disableBackoff := disable }

def WithBufferSize (size : Int) : ConfigOption :=
  fun c => { c with bufferSize := size }

def WithWorkerCount (count : Int) : ConfigOption :=
  fun c => { c with workerCount := count }

/-- The config literal built at the top of `New`
(src/certstream/certstream_test.go, `New`); `DisableBackoff` is the Go zero
value `false`. -/
def defaultConfig : Config :=
  { webSocketURL := DefaultWebSocketURL
    domains := []
    debug := false
    reconnectTimeout := goSecond
    maxReconnectTimeout := 300 * goSecond
    disableBackoff := false
    bufferSize := 50000
    workerCount := 4 }

def applyOptions (options : List ConfigOption) : Config :=
  options.foldl (fun c o => o c) defaultConfig

/-- The observable shape of the `Monitor` built by `New`: its effective
config and the capacities of the two channels it allocates. -/
structure Monitor where
  config : Config
  eventsChanCap : Int
  rawMessageChanCap : Int
  reconnectAttempts : Nat

/-- Embedding of `New` (src/certstream/certstream_test.go): defaults, apply
options, clamp `BufferSize`/`WorkerCount`, allocate channels. -/
def New (options : List ConfigOption) : Monitor :=
  let config := applyOptions options
  let config := if config.bufferSize < 100 then { config with bufferSize := 50000 } else config
  let config := if config.workerCount < 1 then { config with workerCount := 4 } else config
  { config := config
    eventsChanCap := config.bufferSize
    rawMessageChanCap := config.bufferSize * 3
    reconnectAttempts := 0 }

/-! ## Backoff (src/certstream/certstream_test.go, `calculateBackoff`) -/

/-- Go float-to-integer conversion truncates toward zero. -/
def ratTrunc (q : ℚ) : Int := if 0 ≤ q then ⌊q⌋ else ⌈q⌉

/-- Embedding of `Monitor.calculateBackoff`. The `float64` arithmetic is
idealised over `ℚ`. The code draws `jitter := 0.1 + 0.2*rand.Float64()`;
the sampled jitter value is taken as a parameter here (`jitter = 0` is the
claim's "ignoring the jitter factor" multiplier of 1). The final
`time.Duration(calculatedBackoff) * time.Second` truncates the float to a
whole number of seconds. -/
def calculateBackoff (config : Config) (reconnectAttempts : Nat) (jitter : ℚ) : Int :=
  if config.disableBackoff then 0
  else
    let backoffSeconds : ℚ := (config.reconnectTimeout : ℚ) / (goSecond : ℚ)
    let maxBackoffSeconds : ℚ := (config.maxReconnectTimeout : ℚ) / (goSecond : ℚ)
    let calculatedBackoff := backoffSeconds * 2 ^ reconnectAttempts * (1 + jitter)
    let capped := if maxBackoffSeconds < calculatedBackoff then maxBackoffSeconds
                  else calculatedBackoff
    ratTrunc capped * goSecond

theorem ratTrunc_natCast (n : ℕ) : ratTrunc (n : ℚ) = n := by
  unfold ratTrunc
  rw [if_pos (by positivity)]
  exact_mod_cast Int.floor_natCast n

theorem calculateBackoff_eq (config : Config) (reconnectAttempts : Nat) (jitter : ℚ)
    (hd : config.disableBackoff = false) :
    calculateBackoff config reconnectAttempts jitter =
      ratTrunc
        (if (config.maxReconnectTimeout : ℚ) / (goSecond : ℚ) <
              (config.reconnectTimeout : ℚ) / (goSecond : ℚ) * 2 ^ reconnectAttempts *
                (1 + jitter)
         then (config.maxReconnectTimeout : ℚ) / (goSecond : ℚ)
         else (config.reconnectTimeout : ℚ) / (goSecond : ℚ) * 2 ^ reconnectAttempts *
                (1 + jitter)) * goSecond := by
  unfold calculateBackoff
  rw [if_neg (by simp [hd])]

theorem calculateBackoff_whole_seconds (config : Config) (b M : ℕ)
    (hd : config.disableBackoff = false)
    (hb : config.reconnectTimeout = (b : Int) * goSecond)
    (hM : config.maxReconnectTimeout = (M : Int) * goSecond)
    (attempt : ℕ) :
    calculateBackoff config attempt 0 = ((min (b * 2 ^ attempt) M : ℕ) : Int) * goSecond := by
  rw [calculateBackoff_eq config attempt 0 hd]
  have hg : ((goSecond : Int) : ℚ) ≠ 0 := by norm_num [goSecond]
  have hbs : ((config.reconnectTimeout : Int) : ℚ) / ((goSecond : Int) : ℚ) = (b : ℚ) := by
    rw [hb]
    push_cast
    exact mul_div_cancel_right₀ _ hg
  have hms : ((config.maxReconnectTimeout : Int) : ℚ) / ((goSecond : Int) : ℚ) = (M : ℚ) := by
    rw [hM]
    push_cast
    exact mul_div_cancel_right₀ _ hg
  rw [hbs, hms]
  by_cases hcase : (M : ℚ) < (b : ℚ) * 2 ^ attempt * (1 + 0)
  · rw [if_pos hcase, ratTrunc_natCast]
    have hle : M ≤ b * 2 ^ attempt := by
      have : (M : ℚ) < ((b * 2 ^ attempt : ℕ) : ℚ) := by push_cast; linarith
      exact_mod_cast this.le
    rw [min_eq_right hle]
  · rw [if_neg hcase]
    have hval : (b : ℚ) * 2 ^ attempt * (1 + 0) = ((b * 2 ^ attempt : ℕ) : ℚ) := by
      push_cast
      ring
    rw [hval, ratTrunc_natCast]
    have hle : b * 2 ^ attempt ≤ M := by
      have : ((b * 2 ^ attempt : ℕ) : ℚ) ≤ (M : ℚ) := by
        push_cast
        push_cast at hcase
        linarith [not_lt.mp hcase]
      exact_mod_cast this
    rw [min_eq_left hle]

/-- C2 amended: with backoff disabled the delay is zero for every attempt
count and jitter sample. With backoff enabled and the base and maximum
timeouts whole nonnegative numbers of seconds (the final float-to-Duration
conversion truncates to whole seconds, so fractional-second configurations
deviate — see the counterexample), the delay with the jitter factor ignored
equals `base * 2^attempt` clamped to the maximum, is monotone in the attempt
count, and for any nonnegative jitter sample the delay is nonnegative and
never exceeds the configured maximum. -/
theorem C2_calculateBackoff_amended :
    (∀ (config : Config) (attempt : Nat) (jitter : ℚ),
        config.disableBackoff = true → calculateBackoff config attempt jitter = 0) ∧
    (∀ (config : Config) (b M : ℕ),
        config.disableBackoff = false →
        config.reconnectTimeout = (b : Int) * goSecond →
        config.maxReconnectTimeout = (M : Int) * goSecond →
        (∀ attempt : ℕ,
            calculateBackoff config attempt 0 =
              ((min (b * 2 ^ attempt) M : ℕ) : Int) * goSecond) ∧
        (∀ a a' : ℕ, a ≤ a' →
            calculateBackoff config a 0 ≤ calculateBackoff config a' 0) ∧
        (∀ (attempt : ℕ) (jitter : ℚ), 0 ≤ jitter →
            0 ≤ calculateBackoff config attempt jitter ∧
            calculateBackoff config attempt jitter ≤ config.maxReconnectTimeout)) := by
  constructor
  · intro config attempt jitter hd
    unfold calculateBackoff
    rw [if_pos (by simp [hd])]
  · intro config b M hd hb hM
    refine ⟨calculateBackoff_whole_seconds config b M hd hb hM, ?_, ?_⟩
    · intro a a' haa
      rw [calculateBackoff_whole_seconds config b M hd hb hM a,
          calculateBackoff_whole_seconds config b M hd hb hM a']
      have hmono : min (b * 2 ^ a) M ≤ min (b * 2 ^ a') M :=
        min_le_min (Nat.mul_le_mul_left b (Nat.pow_le_pow_right (by norm_num) haa)) le_rfl
      have hcast : ((min (b * 2 ^ a) M : ℕ) : Int) ≤ ((min (b * 2 ^ a') M : ℕ) : Int) := by
        exact_mod_cast hmono
      exact mul_le_mul_of_nonneg_right hcast (by norm_num [goSecond])
    · intro attempt jitter hj
      rw [calculateBackoff_eq config attempt jitter hd]
      have hg : ((goSecond : Int) : ℚ) ≠ 0 := by norm_num [goSecond]
      have hbs : ((config.reconnectTimeout : Int) : ℚ) / ((goSecond : Int) : ℚ) = (b : ℚ) := by
        rw [hb]; push_cast; exact mul_div_cancel_right₀ _ hg
      have hms : ((config.maxReconnectTimeout : Int) : ℚ) / ((goSecond : Int) : ℚ) = (M : ℚ) := by
        rw [hM]; push_cast; exact mul_div_cancel_right₀ _ hg
      rw [hbs, hms]
      set capped : ℚ :=
        (if (M : ℚ) < (b : ℚ) * 2 ^ attempt * (1 + jitter) then (M : ℚ)
         else (b : ℚ) * 2 ^ attempt * (1 + jitter)) with hcapped
      have hcalc_nonneg : (0 : ℚ) ≤ (b : ℚ) * 2 ^ attempt * (1 + jitter) := by positivity
      have hcap_nonneg : (0 : ℚ) ≤ capped := by
        rw [hcapped]
        split
        · positivity
        · exact hcalc_nonneg
      have hcap_le : capped ≤ (M : ℚ) := by
        rw [hcapped]
        split
        · exact le_rfl
        · exact le_of_not_lt (by assumption)
      have htr : ratTrunc capped = ⌊capped⌋ := by
        unfold ratTrunc
        rw [if_pos hcap_nonneg]
      constructor
      · have h0 : (0 : Int) ≤ ratTrunc capped := by
          rw [htr]
          exact Int.floor_nonneg.mpr hcap_nonneg
        exact mul_nonneg h0 (by norm_num [goSecond])
      · have hfl : ratTrunc capped ≤ (M : Int) := by
          rw [htr]
          calc ⌊capped⌋ ≤ ⌊(M : ℚ)⌋ := Int.floor_le_floor hcap_le
          _ = (M : Int) := by exact_mod_cast Int.floor_natCast M
        rw [hM]
        exact mul_le_mul_of_nonneg_right hfl (by norm_num [goSecond])

/-- A configuration whose base reconnect timeout is 1.5 seconds. -/
def fractionalSecondConfig : Config :=
  { defaultConfig with
    reconnectTimeout := 1500000000
    maxReconnectTimeout := 300000000000 }

/-- C2 counterexample: with a base timeout of 1.5 seconds (and backoff
enabled, jitter factor ignored), the code returns 1 second at attempt 0,
while the claim's formula `base * 2^attempt` clamped to the maximum gives
1.5 seconds; the same happens at the largest sampled jitter 0.3. -/
theorem C2_calculateBackoff_counterexample :
    calculateBackoff fractionalSecondConfig 0 0 = 1000000000 ∧
    calculateBackoff fractionalSecondConfig 0 (3 / 10) = 1000000000 ∧
    min ((1500000000 : Int) * 2 ^ (0 : ℕ)) 300000000000 = 1500000000 ∧
    (1000000000 : Int) ≠ 1500000000 := by
  have hfl1 : ⌊(3 / 2 : ℚ)⌋ = 1 := by
    rw [Int.floor_eq_iff]
    norm_num
  have hfl2 : ⌊(39 / 20 : ℚ)⌋ = 1 := by
    rw [Int.floor_eq_iff]
    norm_num
  refine ⟨?_, ?_, by norm_num, by norm_num⟩
  · rw [calculateBackoff_eq _ _ _ rfl]
    have h1 : ((fractionalSecondConfig.reconnectTimeout : Int) : ℚ) / ((goSecond : Int) : ℚ) =
        3 / 2 := by
      norm_num [fractionalSecondConfig, defaultConfig, goSecond]
    have h2 : ((fractionalSecondConfig.maxReconnectTimeout : Int) : ℚ) / ((goSecond : Int) : ℚ) =
        300 := by
      norm_num [fractionalSecondConfig, defaultConfig, goSecond]
    rw [h1, h2, if_neg (by norm_num)]
    unfold ratTrunc
    rw [if_pos (by norm_num)]
    norm_num [hfl1, goSecond]
  · rw [calculateBackoff_eq _ _ _ rfl]
    have h1 : ((fractionalSecondConfig.reconnectTimeout : Int) : ℚ) / ((goSecond : Int) : ℚ) =
        3 / 2 := by
      norm_num [fractionalSecondConfig, defaultConfig, goSecond]
    have h2 : ((fractionalSecondConfig.maxReconnectTimeout : Int) : ℚ) / ((goSecond : Int) : ℚ) =
        300 := by
      norm_num [fractionalSecondConfig, defaultConfig, goSecond]
    rw [h1, h2, if_neg (by norm_num)]
    have h3 : (3 / 2 : ℚ) * 2 ^ (0 : ℕ) * (1 + 3 / 10) = 39 / 20 := by norm_num
    rw [h3]
    unfold ratTrunc
    rw [if_pos (by norm_num)]
    norm_num [hfl2, goSecond]

/-- Witness for the amended C2: the default configuration (base 1s, max
300s) at attempt 3 backs off 8 seconds. -/
theorem C2_calculateBackoff_amended_witness :
    calculateBackoff defaultConfig 3 0 = 8 * goSecond := by
  have h := ((C2_calculateBackoff_amended.2 defaultConfig 1 300 rfl
      (by norm_num [defaultConfig]) (by norm_num [defaultConfig])).1) 3
  norm_num at h
  exact h

/-! ## Certificate data (src/certstream/types.go)

Only the fields read by the embedded operations are modelled: the message
type discriminant, the leaf certificate's domain list and `not_before`
epoch-second value, and the `seen` epoch-second value. The JSON numeric
fields are `float64` in Go, idealised as `ℚ`. -/

structure LeafCert where
  allDomains : List String
  notBefore : ℚ

structure CertPayload where
  leafCert : LeafCert
  seen : ℚ

structure CertData where
  messageType : String
  data : CertPayload

structure CertEvent where
  certificate : CertData
  timestamp : Int
  certType : String
  matchedDomains : List String

/-- Embedding of `Monitor.createCertEvent`
(src/certstream/certstream_test.go). `time.Unix(int64(f), 0)` is the
truncated epoch second as a nanosecond instant; `Add(24 * time.Hour)` adds
24*3600 seconds; `Before` is a strict comparison against `time.Now()`,
passed here as the nanosecond instant `now`. The Go zero value of
`MatchedDomains` is the empty list. -/
def createCertEvent (cert : CertData) (now : Int) : CertEvent :=
  let timestamp := ratTrunc cert.data.seen * goSecond
  let certType :=
    if ratTrunc cert.data.leafCert.notBefore * goSecond + 24 * 3600 * goSecond < now
    then "RENEWAL" else "NEW"
  { certificate := cert
    timestamp := timestamp
    certType := certType
    matchedDomains := [] }

theorem ratTrunc_intCast (n : Int) : ratTrunc (n : ℚ) = n := by
  unfold ratTrunc
  split
  · exact Int.floor_intCast n
  · exact Int.ceil_intCast n

/-- C3: for a record whose not-before value is a whole epoch second `nb`,
the event built by `createCertEvent` is classified `"RENEWAL"` iff `nb` (as
a nanosecond instant) is strictly more than 24 hours before the processing
instant `now`, and `"NEW"` otherwise; in particular exactly 24h0m0s in the
past is `"NEW"` and 24h0m1s in the past is `"RENEWAL"`. -/
theorem C3_createCertEvent_classification :
    (∀ (cert : CertData) (now : Int) (nb : Int),
        cert.data.leafCert.notBefore = (nb : ℚ) →
        (((createCertEvent cert now).certType = "RENEWAL" ↔
            nb * goSecond + 24 * 3600 * goSecond < now) ∧
         ((createCertEvent cert now).certType = "NEW" ↔
            ¬(nb * goSecond + 24 * 3600 * goSecond < now)))) ∧
    (∀ (cert : CertData) (now : Int) (nb : Int),
        cert.data.leafCert.notBefore = (nb : ℚ) →
        now = nb * goSecond + 24 * 3600 * goSecond →
        (createCertEvent cert now).certType = "NEW") ∧
    (∀ (cert : CertData) (now : Int) (nb : Int),
        cert.data.leafCert.notBefore = (nb : ℚ) →
        now = nb * goSecond + 24 * 3600 * goSecond + 1 * goSecond →
        (createCertEvent cert now).certType = "RENEWAL") := by
  have main : ∀ (cert : CertData) (now : Int) (nb : Int),
      cert.data.leafCert.notBefore = (nb : ℚ) →
      (((createCertEvent cert now).certType = "RENEWAL" ↔
          nb * goSecond + 24 * 3600 * goSecond < now) ∧
       ((createCertEvent cert now).certType = "NEW" ↔
          ¬(nb * goSecond + 24 * 3600 * goSecond < now))) := by
    intro cert now nb hnb
    unfold createCertEvent
    simp only [hnb, ratTrunc_intCast]
    by_cases hlt : nb * goSecond + 24 * 3600 * goSecond < now
    · rw [if_pos hlt]
      refine ⟨⟨fun _ => hlt, fun _ => rfl⟩, ?_, ?_⟩
      · intro h
        exact absurd h (by decide)
      · intro h
        exact absurd hlt h
    · rw [if_neg hlt]
      refine ⟨⟨fun h => absurd h (by decide), fun h => absurd h hlt⟩,
        fun _ => hlt, fun _ => rfl⟩
  refine ⟨main, ?_, ?_⟩
  · intro cert now nb hnb hnow
    exact ((main cert now nb hnb).2).mpr (by omega)
  · intro cert now nb hnb hnow
    exact ((main cert now nb hnb).1).mpr (by simp [goSecond] at hnow ⊢; omega)

/-- Witness for C3 at a concrete record: not-before 1000s, processed at
exactly 1000s + 24h gives `"NEW"`; processed one second later gives
`"RENEWAL"`. -/
theorem C3_createCertEvent_classification_witness :
    (createCertEvent ⟨"certificate_update", ⟨⟨["nhn.no"], 1000⟩, 90000⟩⟩
        ((1000 + 24 * 3600) * goSecond)).certType = "NEW" ∧
    (createCertEvent ⟨"certificate_update", ⟨⟨["nhn.no"], 1000⟩, 90000⟩⟩
        ((1000 + 24 * 3600 + 1) * goSecond)).certType = "RENEWAL" := by
  constructor
  · exact C3_createCertEvent_classification.2.1
      ⟨"certificate_update", ⟨⟨["nhn.no"], 1000⟩, 90000⟩⟩ _ 1000 (by norm_num) (by ring)
  · exact C3_createCertEvent_classification.2.2
      ⟨"certificate_update", ⟨⟨["nhn.no"], 1000⟩, 90000⟩⟩ _ 1000 (by norm_num) (by ring)

/-! ## Filtering and processing (src/certstream/certstream_test.go) -/

/-- Inner loop of `Monitor.findMatchedDomainsFromList`: scan the
certificate's domains and stop at the first match (`break`). -/
def anyCertDomainMatches (domains : List String) (watchDomain : String) : Bool :=
  match domains with
  | [] => false
  | d :: ds => if IsDomainMatch d watchDomain then true else anyCertDomainMatches ds watchDomain

/-- Embedding of `Monitor.findMatchedDomainsFromList`: for each watched
domain of the config, in watch-list order, append it to the result when
some certificate domain matches it. -/
def findMatchedDomainsFromList (watchDomains domains : List String) : List String :=
  match watchDomains with
  | [] => []
  | w :: ws =>
    if anyCertDomainMatches domains w then w :: findMatchedDomainsFromList ws domains
    else findMatchedDomainsFromList ws domains

/-- What one `processCertificate` call produces: the events handed to
`sendEvent` and the number of expensive full `json.Unmarshal` decodes. -/
structure ProcessOutcome where
  events : List CertEvent
  fullDecodes : ℕ

/-- Embedding of `Monitor.processCertificate` on a well-formed raw message,
represented by its decoded record `msg`: the lightweight `certMessageLite`
decode reads only the message type and the leaf domain list of `msg`; the
full decode (counted by `fullDecodes`) yields `msg` itself. -/
def processCertificate (configDomains : List String) (msg : CertData) (now : Int) :
    ProcessOutcome :=
  if msg.messageType ≠ "certificate_update" then ⟨[], 0⟩
  else if configDomains = [] then
    ⟨[createCertEvent msg now], 1⟩
  else
    let matchedDomains := findMatchedDomainsFromList configDomains msg.data.leafCert.allDomains
    if matchedDomains = [] then ⟨[], 0⟩
    else
      ⟨[{ createCertEvent msg now with matchedDomains := matchedDomains }], 1⟩

theorem anyCertDomainMatches_eq_any (ds : List String) (w : String) :
    anyCertDomainMatches ds w = ds.any (fun d => IsDomainMatch d w) := by
  induction ds with
  | nil => rfl
  | cons d ds ih =>
    cases h : IsDomainMatch d w <;> simp [anyCertDomainMatches, h, ih]

theorem findMatchedDomainsFromList_eq_filter (ws ds : List String) :
    findMatchedDomainsFromList ws ds =
      ws.filter (fun w => ds.any (fun d => IsDomainMatch d w)) := by
  induction ws with
  | nil => rfl
  | cons w ws ih =>
    unfold findMatchedDomainsFromList
    rw [anyCertDomainMatches_eq_any, ih, List.filter_cons]

/-- C5: a well-formed certificate-update message produces, with an empty
watch-list, exactly one event with an empty match set (after one full
decode); with a non-empty watch-list none of whose members matches any leaf
domain, zero events and zero full decodes. -/
theorem C5_processCertificate_prefilter :
    (∀ (msg : CertData) (now : Int),
        msg.messageType = "certificate_update" →
        (processCertificate [] msg now).events = [createCertEvent msg now] ∧
        (processCertificate [] msg now).events.length = 1 ∧
        (∀ e ∈ (processCertificate [] msg now).events, e.matchedDomains = []) ∧
        (processCertificate [] msg now).fullDecodes = 1) ∧
    (∀ (watchDomains : List String) (msg : CertData) (now : Int),
        msg.messageType = "certificate_update" →
        watchDomains ≠ [] →
        (∀ d ∈ msg.data.leafCert.allDomains, ∀ w ∈ watchDomains,
            IsDomainMatch d w = false) →
        (processCertificate watchDomains msg now).events = [] ∧
        (processCertificate watchDomains msg now).fullDecodes = 0) := by
  constructor
  · intro msg now htype
    unfold processCertificate
    rw [if_neg (by simp [htype]), if_pos rfl]
    refine ⟨rfl, rfl, ?_, rfl⟩
    intro e he
    simp only [List.mem_singleton] at he
    subst he
    rfl
  · intro watchDomains msg now htype hne hnomatch
    have hmatched : findMatchedDomainsFromList watchDomains msg.data.leafCert.allDomains = [] := by
      rw [findMatchedDomainsFromList_eq_filter]
      rw [List.filter_eq_nil_iff]
      intro w hw
      simp only [List.any_eq_true, not_exists, not_and, Bool.not_eq_true]
      intro d hd
      exact hnomatch d hd w hw
    unfold processCertificate
    rw [if_neg (by simp [htype]), if_neg hne]
    simp only [hmatched]
    exact ⟨rfl, rfl⟩

/-- Witness for C5 at concrete inputs: an empty watch-list yields one event
with empty match set; the watch-list `["nhn.no"]` against leaf domains
`["example.com"]` yields no event and no full decode. -/
theorem C5_processCertificate_prefilter_witness :
    (processCertificate [] ⟨"certificate_update", ⟨⟨["example.com"], 0⟩, 0⟩⟩ 0).events.length
      = 1 ∧
    (processCertificate ["nhn.no"] ⟨"certificate_update", ⟨⟨["example.com"], 0⟩, 0⟩⟩ 0).events
      = [] ∧
    (processCertificate ["nhn.no"] ⟨"certificate_update", ⟨⟨["example.com"], 0⟩, 0⟩⟩
        0).fullDecodes = 0 := by
  refine ⟨(C5_processCertificate_prefilter.1
      ⟨"certificate_update", ⟨⟨["example.com"], 0⟩, 0⟩⟩ 0 rfl).2.1, ?_, ?_⟩
  · exact (C5_processCertificate_prefilter.2 ["nhn.no"]
      ⟨"certificate_update", ⟨⟨["example.com"], 0⟩, 0⟩⟩ 0 rfl (by decide) (by decide)).1
  · exact (C5_processCertificate_prefilter.2 ["nhn.no"]
      ⟨"certificate_update", ⟨⟨["example.com"], 0⟩, 0⟩⟩ 0 rfl (by decide) (by decide)).2

/-- C6: the matched-domain list is exactly the watched domains for which
some leaf domain matches, in watch-list order (a filter of the watch-list,
hence without duplicates when the watch-list has none and a sublist of it),
and every event a non-empty watch-list emits carries that non-empty list. -/
theorem C6_match_set :
    (∀ ws ds : List String,
        findMatchedDomainsFromList ws ds =
          ws.filter (fun w => ds.any (fun d => IsDomainMatch d w))) ∧
    (∀ ws ds : List String, ∀ w : String,
        w ∈ findMatchedDomainsFromList ws ds ↔
          w ∈ ws ∧ ∃ d ∈ ds, IsDomainMatch d w = true) ∧
    (∀ ws ds : List String, ws.Nodup → (findMatchedDomainsFromList ws ds).Nodup) ∧
    (∀ ws ds : List String, (findMatchedDomainsFromList ws ds).Sublist ws) ∧
    (∀ (ws : List String) (msg : CertData) (now : Int),
        msg.messageType = "certificate_update" → ws ≠ [] →
        ∀ e ∈ (processCertificate ws msg now).events,
          e.matchedDomains =
            ws.filter (fun w => msg.data.leafCert.allDomains.any
              (fun d => IsDomainMatch d w)) ∧
          e.matchedDomains ≠ []) := by
  refine ⟨findMatchedDomainsFromList_eq_filter, ?_, ?_, ?_, ?_⟩
  · intro ws ds w
    rw [findMatchedDomainsFromList_eq_filter]
    simp [List.mem_filter]
  · intro ws ds hnd
    rw [findMatchedDomainsFromList_eq_filter]
    exact hnd.filter _
  · intro ws ds
    rw [findMatchedDomainsFromList_eq_filter]
    exact List.filter_sublist ws
  · intro ws msg now htype hne e he
    unfold processCertificate at he
    rw [if_neg (by simp [htype]), if_neg hne] at he
    by_cases hm : findMatchedDomainsFromList ws msg.data.leafCert.allDomains = []
    · simp [hm] at he
    · simp only [hm, if_false, List.mem_singleton] at he
      subst he
      refine ⟨?_, ?_⟩
      · show findMatchedDomainsFromList ws msg.data.leafCert.allDomains = _
        exact findMatchedDomainsFromList_eq_filter ws msg.data.leafCert.allDomains
      · exact hm

/-- Witness for C6: instantiates the emitted-event part on the end-to-end
example of the spec (watch-list `["nhn.no"]`, leaf domains
`["nhn.no", "www.nhn.no"]`). -/
theorem C6_match_set_witness :
    ∃ e ∈ (processCertificate ["nhn.no"]
        ⟨"certificate_update", ⟨⟨["nhn.no", "www.nhn.no"], 0⟩, 0⟩⟩ 0).events,
      e.matchedDomains = ["nhn.no"] ∧ e.matchedDomains ≠ [] := by
  have hlen : (processCertificate ["nhn.no"]
      ⟨"certificate_update", ⟨⟨["nhn.no", "www.nhn.no"], 0⟩, 0⟩⟩ 0).events.length = 1 := by
    decide
  have hpos : 0 < (processCertificate ["nhn.no"]
      ⟨"certificate_update", ⟨⟨["nhn.no", "www.nhn.no"], 0⟩, 0⟩⟩ 0).events.length := by
    omega
  obtain ⟨e, he⟩ := List.exists_mem_of_length_pos hpos
  have h := C6_match_set.2.2.2.2 ["nhn.no"]
    ⟨"certificate_update", ⟨⟨["nhn.no", "www.nhn.no"], 0⟩, 0⟩⟩ 0 rfl (by decide) e he
  exact ⟨e, he, by rw [h.1]; decide, h.2⟩

/-! ## Raw ingestion queue (src/certstream/certstream_test.go,
`processMessages`) -/

/-- The raw-message channel with its capacity, buffered contents and the
`droppedMessages` counter; raw frames are byte strings. -/
structure RawQueue where
  capacity : ℕ
  buffered : List String
  droppedMessages : ℕ

/-- The non-blocking enqueue in the body of `processMessages`: a
`select`/`default` send that buffers when there is room and otherwise drops
the new message and atomically increments `droppedMessages`. -/
def enqueueRaw (st : RawQueue) (msg : String) : RawQueue :=
  if st.buffered.length < st.capacity then { st with buffered := st.buffered ++ [msg] }
  else { st with droppedMessages := st.droppedMessages + 1 }

/-- `Monitor.processMessages` restricted to its queueing effect: each frame
the connection delivers is offered to the raw-message channel without
blocking. With zero consumers running, nothing is ever dequeued, so the
queue state is just folded over the incoming frames. -/
def processMessages (st : RawQueue) (incoming : List String) : RawQueue :=
  incoming.foldl enqueueRaw st

theorem processMessages_state (st : RawQueue) (incoming : List String)
    (h : st.buffered.length ≤ st.capacity) :
    (processMessages st incoming).capacity = st.capacity ∧
    (processMessages st incoming).buffered.length =
      min (st.buffered.length + incoming.length) st.capacity ∧
    (processMessages st incoming).droppedMessages =
      st.droppedMessages + (st.buffered.length + incoming.length - st.capacity) := by
  induction incoming generalizing st with
  | nil =>
    refine ⟨rfl, ?_, ?_⟩ <;> simp [processMessages] <;> omega
  | cons m ms ih =>
    have hstep : processMessages st (m :: ms) = processMessages (enqueueRaw st m) ms := rfl
    by_cases hc : st.buffered.length < st.capacity
    · have henq : enqueueRaw st m = { st with buffered := st.buffered ++ [m] } := by
        unfold enqueueRaw
        rw [if_pos hc]
      have hlen : ({ st with buffered := st.buffered ++ [m] } : RawQueue).buffered.length ≤
          ({ st with buffered := st.buffered ++ [m] } : RawQueue).capacity := by
        simp
        omega
      have := ih _ hlen
      rw [hstep, henq]
      refine ⟨this.1, ?_, ?_⟩
      · rw [this.2.1]
        simp
        omega
      · rw [this.2.2]
        simp
        omega
    · have henq : enqueueRaw st m = { st with droppedMessages := st.droppedMessages + 1 } := by
        unfold enqueueRaw
        rw [if_neg hc]
      have hlen : ({ st with droppedMessages := st.droppedMessages + 1 } : RawQueue).buffered.length ≤
          ({ st with droppedMessages := st.droppedMessages + 1 } : RawQueue).capacity := h
      have := ih _ hlen
      rw [hstep, henq]
      refine ⟨this.1, ?_, ?_⟩
      · rw [this.2.1]
        simp
        omega
      · rw [this.2.2]
        simp
        omega

/-- C4: offering `N + K` raw messages to an empty queue of capacity `N`
with zero consumers buffers exactly `N`, leaves the `droppedMessages`
counter at exactly `K`, and loses no message uncounted
(buffered + dropped = offered). -/
theorem C4_processMessages_drop_count (N K : ℕ) (msgs : List String)
    (hlen : msgs.length = N + K) :
    (processMessages ⟨N, [], 0⟩ msgs).buffered.length = N ∧
    (processMessages ⟨N, [], 0⟩ msgs).droppedMessages = K ∧
    (processMessages ⟨N, [], 0⟩ msgs).buffered.length +
      (processMessages ⟨N, [], 0⟩ msgs).droppedMessages = msgs.length := by
  have h := processMessages_state ⟨N, [], 0⟩ msgs (by simp)
  simp only [List.length_nil] at h
  refine ⟨?_, ?_, ?_⟩ <;> omega

/-- Witness for C4: capacity 2 fed 3 messages drops exactly 1. -/
theorem C4_processMessages_drop_count_witness :
    (processMessages ⟨2, [], 0⟩ ["a", "b", "c"]).buffered.length = 2 ∧
    (processMessages ⟨2, [], 0⟩ ["a", "b", "c"]).droppedMessages = 1 := by
  have h := C4_processMessages_drop_count 2 1 ["a", "b", "c"] (by decide)
  exact ⟨h.1, h.2.1⟩

/-! ## Event channel emission -/

/-- The bounded event channel with its `eventsDropped` counter. -/
structure EventChannel where
  capacity : ℕ
  buffered : List CertEvent
  eventsDropped : ℕ

/-- Modelled from the spec: the `sendEvent` of the Stats-equipped Monitor
(the version whose caller src/unnamed/part_004 reads
`Stats().EventsDropped`) is not under src/; per spec §4.3, "Emission to the
Event Channel follows the same non-blocking, drop-on-full policy as
ingestion, with its own dropped-counter". -/
def sendEvent (ch : EventChannel) (event : CertEvent) : EventChannel :=
  if ch.buffered.length < ch.capacity then { ch with buffered := ch.buffered ++ [event] }
  else { ch with eventsDropped := ch.eventsDropped + 1 }

/-- A sequence of emissions to the event channel. -/
def sendEvents (ch : EventChannel) (events : List CertEvent) : EventChannel :=
  events.foldl sendEvent ch

theorem sendEvents_state (ch : EventChannel) (events : List CertEvent)
    (h : ch.buffered.length ≤ ch.capacity) :
    (sendEvents ch events).capacity = ch.capacity ∧
    (sendEvents ch events).buffered.length =
      min (ch.buffered.length + events.length) ch.capacity ∧
    (sendEvents ch events).eventsDropped =
      ch.eventsDropped + (ch.buffered.length + events.length - ch.capacity) := by
  induction events generalizing ch with
  | nil =>
    refine ⟨rfl, ?_, ?_⟩ <;> simp [sendEvents] <;> omega
  | cons e es ih =>
    have hstep : sendEvents ch (e :: es) = sendEvents (sendEvent ch e) es := rfl
    by_cases hc : ch.buffered.length < ch.capacity
    · have henq : sendEvent ch e = { ch with buffered := ch.buffered ++ [e] } := by
        unfold sendEvent
        rw [if_pos hc]
      have hlen : ({ ch with buffered := ch.buffered ++ [e] } : EventChannel).buffered.length ≤
          ({ ch with buffered := ch.buffered ++ [e] } : EventChannel).capacity := by
        simp
        omega
      have := ih _ hlen
      rw [hstep, henq]
      refine ⟨this.1, ?_, ?_⟩
      · rw [this.2.1]
        simp
        omega
      · rw [this.2.2]
        simp
        omega
    · have henq : sendEvent ch e = { ch with eventsDropped := ch.eventsDropped + 1 } := by
        unfold sendEvent
        rw [if_neg hc]
      have hlen :
          ({ ch with eventsDropped := ch.eventsDropped + 1 } : EventChannel).buffered.length ≤
          ({ ch with eventsDropped := ch.eventsDropped + 1 } : EventChannel).capacity := h
      have := ih _ hlen
      rw [hstep, henq]
      refine ⟨this.1, ?_, ?_⟩
      · rw [this.2.1]
        simp
        omega
      · rw [this.2.2]
        simp
        omega

/-- C8 (spec-modelled): after any sequence of emissions to an initially
empty event channel, the events-dropped counter equals the number of events
that were not delivered into the channel: buffered + counter = emitted, the
counter is exactly the overflow beyond the capacity, and the channel never
holds more than its capacity. -/
theorem C8_sendEvent_drop_counter (N : ℕ) (events : List CertEvent) :
    (sendEvents ⟨N, [], 0⟩ events).buffered.length +
      (sendEvents ⟨N, [], 0⟩ events).eventsDropped = events.length ∧
    (sendEvents ⟨N, [], 0⟩ events).eventsDropped = events.length - N ∧
    (sendEvents ⟨N, [], 0⟩ events).buffered.length = min events.length N := by
  have h := sendEvents_state ⟨N, [], 0⟩ events (by simp)
  simp only [List.length_nil] at h
  refine ⟨?_, ?_, ?_⟩ <;> omega

/-! ## Reconnect loop (src/certstream/certstream_test.go, `monitor`) -/

/-- How one connection session can end, as observed by `monitor`:
the dial can fail outright, or the established connection's read loop can
end with a read error, or it can end because the context/stop channel fired
(the only case in which `processMessages`, and hence `connectAndProcess`,
returns `true`). -/
inductive SessionOutcome where
  | dialFailed
  | establishedThenReadError
  | establishedThenStopped
  deriving DecidableEq

/-- Return value of `Monitor.connectAndProcess` for each way the session
ends: `false` on a dial error; otherwise it returns what `processMessages`
returns, which is `false` on a read error and `true` only on the
context/stop paths. -/
def connectAndProcess : SessionOutcome → Bool
  | .dialFailed => false
  | .establishedThenReadError => false
  | .establishedThenStopped => true

/-- One iteration of the `monitor` reconnect loop acting on the
`reconnectAttempts` counter: reset to zero when `connectAndProcess`
returned `true`, increment otherwise. -/
def monitorStep (reconnectAttempts : ℕ) (s : SessionOutcome) : ℕ :=
  if connectAndProcess s then 0 else reconnectAttempts + 1

/-- The `monitor` loop run over a trace of session outcomes, returning the
final `reconnectAttempts` counter. -/
def runMonitor (reconnectAttempts : ℕ) (trace : List SessionOutcome) : ℕ :=
  trace.foldl monitorStep reconnectAttempts

/-- C7 counterexample: a connection that is successfully established and
later ends with a read error makes `connectAndProcess` return `false`, so
the loop increments the counter to 1 instead of resetting it to 0 as the
claim states. -/
theorem C7_reconnect_counter_counterexample :
    connectAndProcess SessionOutcome.establishedThenReadError = false ∧
    runMonitor 0 [SessionOutcome.establishedThenReadError] = 1 ∧
    (1 : ℕ) ≠ 0 := by
  refine ⟨rfl, rfl, by decide⟩

/-- C7 amended: the counter is incremented on every failed dial attempt and
also on every established connection that ends with a read error; it is
reset to zero exactly when the session ends via the stop/cancellation path
(the only case `connectAndProcess` reports as success). -/
theorem C7_reconnect_counter_amended :
    ∀ (a : ℕ) (tr : List SessionOutcome),
      runMonitor a (tr ++ [SessionOutcome.establishedThenStopped]) = 0 ∧
      runMonitor a (tr ++ [SessionOutcome.dialFailed]) = runMonitor a tr + 1 ∧
      runMonitor a (tr ++ [SessionOutcome.establishedThenReadError]) =
        runMonitor a tr + 1 := by
  intro a tr
  refine ⟨?_, ?_, ?_⟩ <;>
    simp [runMonitor, List.foldl_append, monitorStep, connectAndProcess]

/-! ## Notification dispatcher (src/unnamed/part_004) -/

/-- A webhook job: the event plus the specific matching leaf domain. -/
structure WebhookJob where
  event : CertEvent
  domain : String

/-- Inner loop of `webhookDispatcher.enqueue`: scan the event's matched
watch domains and `break` at the first one the leaf domain matches. -/
def matchesAnyWatch (certDomain : String) (watchDomains : List String) : Bool :=
  match watchDomains with
  | [] => false
  | w :: ws => if IsDomainMatch certDomain w then true else matchesAnyWatch certDomain ws

/-- Outer loop of `webhookDispatcher.enqueue` over the certificate's full
domain list: one job per leaf domain that matches some matched watch
domain. -/
def enqueueLoop (event : CertEvent) : List String → List WebhookJob
  | [] => []
  | d :: ds =>
    if matchesAnyWatch d event.matchedDomains then ⟨event, d⟩ :: enqueueLoop event ds
    else enqueueLoop event ds

/-- Embedding of `webhookDispatcher.enqueue`: the sequence of jobs offered
to the jobs channel (the channel push itself follows the same non-blocking
drop-on-full policy as the other queues). -/
def enqueue (event : CertEvent) : List WebhookJob :=
  enqueueLoop event event.certificate.data.leafCert.allDomains

theorem matchesAnyWatch_eq_any (d : String) (ws : List String) :
    matchesAnyWatch d ws = ws.any (fun w => IsDomainMatch d w) := by
  induction ws with
  | nil => rfl
  | cons w ws ih =>
    cases h : IsDomainMatch d w <;> simp [matchesAnyWatch, h, ih]

theorem enqueueLoop_eq_filter_map (event : CertEvent) (ds : List String) :
    enqueueLoop event ds =
      (ds.filter (fun d => event.matchedDomains.any (fun w => IsDomainMatch d w))).map
        (fun d => ⟨event, d⟩) := by
  induction ds with
  | nil => rfl
  | cons d ds ih =>
    unfold enqueueLoop
    rw [matchesAnyWatch_eq_any, ih, List.filter_cons]
    by_cases h : event.matchedDomains.any (fun w => IsDomainMatch d w) = true
    · rw [if_pos h, if_pos h, List.map_cons]
    · rw [if_neg h, if_neg h]

/-- C9: the dispatcher creates exactly one job per leaf domain of the
certificate's full domain list that matches at least one domain of the
event's match set, each job carrying that leaf domain; on the spec's
end-to-end example (domains `["nhn.no", "www.nhn.no"]`, match set
`["nhn.no"]`) exactly two jobs are enqueued. -/
theorem C9_enqueue_jobs :
    (∀ event : CertEvent,
        enqueue event =
          (event.certificate.data.leafCert.allDomains.filter
              (fun d => event.matchedDomains.any (fun w => IsDomainMatch d w))).map
            (fun d => ⟨event, d⟩)) ∧
    (enqueue ⟨⟨"certificate_update", ⟨⟨["nhn.no", "www.nhn.no"], 0⟩, 0⟩⟩, 0, "RENEWAL",
        ["nhn.no"]⟩).length = 2 ∧
    (enqueue ⟨⟨"certificate_update", ⟨⟨["nhn.no", "www.nhn.no"], 0⟩, 0⟩⟩, 0, "RENEWAL",
        ["nhn.no"]⟩).map (fun j => j.domain) = ["nhn.no", "www.nhn.no"] := by
  refine ⟨fun event => enqueueLoop_eq_filter_map event _, by decide, by decide⟩

/-! ## Constructor defaults (src/certstream/certstream_test.go, `New`) -/

/-- C10: for every option list, `New` produces an effective configuration
with `BufferSize ≥ 100` and `WorkerCount ≥ 1`; a configured `BufferSize`
below 100 is replaced by 50000 (otherwise kept), a configured `WorkerCount`
below 1 by 4 (otherwise kept); the events channel capacity equals the
effective `BufferSize` and the raw-message channel capacity is three times
it. -/
theorem C10_New_defaults (options : List ConfigOption) :
    (New options).config.bufferSize ≥ 100 ∧
    (New options).config.workerCount ≥ 1 ∧
    (New options).eventsChanCap = (New options).config.bufferSize ∧
    (New options).rawMessageChanCap = 3 * (New options).config.bufferSize ∧
    ((applyOptions options).bufferSize < 100 → (New options).config.bufferSize = 50000) ∧
    (¬(applyOptions options).bufferSize < 100 →
      (New options).config.bufferSize = (applyOptions options).bufferSize) ∧
    ((applyOptions options).workerCount < 1 → (New options).config.workerCount = 4) ∧
    (¬(applyOptions options).workerCount < 1 →
      (New options).config.workerCount = (applyOptions options).workerCount) := by
  have hchar :
      (New options).config.bufferSize =
        (if (applyOptions options).bufferSize < 100 then 50000
         else (applyOptions options).bufferSize) ∧
      (New options).config.workerCount =
        (if (applyOptions options).workerCount < 1 then 4
         else (applyOptions options).workerCount) ∧
      (New options).eventsChanCap = (New options).config.bufferSize ∧
      (New options).rawMessageChanCap = (New options).config.bufferSize * 3 := by
    unfold New
    by_cases h1 : (applyOptions options).bufferSize < 100 <;>
      by_cases h2 : (applyOptions options).workerCount < 1 <;>
        simp [h1, h2]
  obtain ⟨hb, hw, he, hr⟩ := hchar
  refine ⟨?_, ?_, he, by omega, ?_, ?_, ?_, ?_⟩
  · rw [hb]
    split <;> omega
  · rw [hw]
    split <;> omega
  · intro h
    rw [hb, if_pos h]
  · intro h
    rw [hb, if_neg h]
  · intro h
    rw [hw, if_pos h]
  · intro h
    rw [hw, if_neg h]

/-- Witness for C10: `BufferSize 5` and `WorkerCount 0` are replaced by the
defaults 50000 and 4. -/
theorem C10_New_defaults_witness :
    (New [WithBufferSize 5, WithWorkerCount 0]).config.bufferSize = 50000 ∧
    (New [WithBufferSize 5, WithWorkerCount 0]).config.workerCount = 4 := by
  have h := C10_New_defaults [WithBufferSize 5, WithWorkerCount 0]
  exact ⟨h.2.2.2.2.1 (by decide), h.2.2.2.2.2.2.1 (by decide)⟩

end CertstreamMonitor
